import Mathlib

/-!
Verification of the ccbase worker-group core (`src/ccbase/worker_group.cc`).

The shallow embedding below models the data and operations of
`worker_group.cc`.  The collaborator types declared in headers that are not
part of the sources (the sharded `TaskQueue`, the `TimerWheel`, the
`ClientContext` cache entry) are modelled from the specification, and each
such definition is marked `Modelled from the spec:` in its doc comment.
-/

namespace CcBase

/-- A task closure, abstracted.  A closure is either a plain user closure
(identified by a tag), or one of the two wrapper closures built by
`WorkerGroup::PostTask(func, delay_ms)` and `WorkerGroup::PostPeriodTask`,
which capture the inner closure together with the delay or period. -/
inductive Task where
  | plain (tag : Nat)
  | delayWrapper (delayMs : Nat) (inner : Task)
  | periodWrapper (periodMs : Nat) (inner : Task)
deriving DecidableEq, Repr

/-- Modelled from the spec: the sharded bounded MPMC `TaskQueue`
(`ccbase/worker_group.h` and the queue header are not under `src/`).
Bounded capacity shared across all lanes, one FIFO lane per worker
(`lanes`, front = oldest), and a deterministic round-robin cursor for the
untargeted placement policy (the spec leaves the exact fairness-respecting
policy as a documented implementation choice). -/
structure TaskQueue where
  capacity : Nat
  lanes : List (List Task)
  rrCursor : Nat
deriving DecidableEq, Repr

/-- Number of consumer lanes (fixed at construction, one per worker). -/
def TaskQueue.laneNum (q : TaskQueue) : Nat := q.lanes.length

/-- Contents of one lane (empty for an out-of-range index). -/
def TaskQueue.lane (q : TaskQueue) (i : Nat) : List Task := q.lanes.getD i []

/-- Total number of queued items; capacity is a single shared budget. -/
def TaskQueue.totalSize (q : TaskQueue) : Nat := (q.lanes.map List.length).sum

/-- Modelled from the spec: targeted `OutQueue::Push(lane_id, item)`.
Appends to the named lane and returns `true`, or returns `false` with no
effect when the shared capacity is exhausted; an invalid lane index is a
contract violation signalled fatally (`none`), never a silent drop and
never a misroute to another lane. -/
def TaskQueue.push (q : TaskQueue) (laneId : Nat) (t : Task) :
    Option (Bool × TaskQueue) :=
  if laneId < q.lanes.length then
    if q.totalSize < q.capacity then
      some (true, { q with lanes := q.lanes.set laneId (q.lane laneId ++ [t]) })
    else
      some (false, q)
  else
    none

/-- Modelled from the spec: untargeted `OutQueue::Push(item)`.  Chooses a
lane round-robin; returns the chosen lane on acceptance and `none` on
capacity rejection (leaving the queue unchanged). -/
def TaskQueue.pushAny (q : TaskQueue) (t : Task) : Option Nat × TaskQueue :=
  if 0 < q.lanes.length ∧ q.totalSize < q.capacity then
    let i := q.rrCursor % q.lanes.length
    (some i,
     { q with lanes := q.lanes.set i (q.lane i ++ [t]),
              rrCursor := q.rrCursor + 1 })
  else
    (none, q)

/-- Modelled from the spec: non-blocking `InQueue::Pop`, taking from the
front of this worker's own lane; returns `none` when the lane is empty. -/
def TaskQueue.pop (q : TaskQueue) (laneId : Nat) : Option Task × TaskQueue :=
  match q.lane laneId with
  | [] => (none, q)
  | t :: rest => (some t, { q with lanes := q.lanes.set laneId rest })

/-- Modelled from the spec: a timer armed on the worker-embedded
`TimerWheel` (`ccbase/timer_wheel.h` is not under `src/`): remaining due
time, `some period` when repeating, and the armed callback closure. -/
structure TimerEntry where
  due : Nat
  periodMs : Option Nat
  callback : Task
deriving DecidableEq, Repr

/-- The per-worker state: the worker's lane index `id` (`id_`), the
thread-local self pointer of the worker's thread (`Worker::tls_self_`,
modelled as the id it points at), the embedded timer wheel's armed timers,
and the log of executed plain-task tags in execution order. -/
structure Worker where
  id : Nat
  tlsSelf : Option Nat
  timers : List TimerEntry
  log : List Nat
deriving DecidableEq, Repr

/-- Execution failure: dereferencing `Worker::self()` when the
thread-local self pointer is still null. -/
inductive ExecError where
  | nullSelf
deriving DecidableEq, Repr

/-- Modelled from the spec: `TimerWheel::AddTimer(delay, callback)` arms a
one-shot timer on this worker. -/
def Worker.addTimer (w : Worker) (delayMs : Nat) (callback : Task) : Worker :=
  { w with timers := w.timers ++ [⟨delayMs, none, callback⟩] }

/-- Modelled from the spec: `TimerWheel::AddPeriodTimer(period, callback)`
arms a repeating timer on this worker. -/
def Worker.addPeriodTimer (w : Worker) (periodMs : Nat) (callback : Task) :
    Worker :=
  { w with timers := w.timers ++ [⟨periodMs, some periodMs, callback⟩] }

/-- Synchronous execution of one dequeued closure on worker `w`.  A plain
closure appends its tag to the log.  The delay wrapper closure
(`[func, delay_ms] { Worker::self()->AddTimer(delay_ms, func); }`)
dereferences the thread-local self pointer and arms a one-shot timer with
the inner closure as callback; the periodic wrapper arms a repeating
timer.  A null self pointer is a null-pointer dereference. -/
def Worker.execTask (w : Worker) : Task → Except ExecError Worker
  | .plain tag => .ok { w with log := w.log ++ [tag] }
  | .delayWrapper delayMs inner =>
    match w.tlsSelf with
    | none => .error .nullSelf
    | some _ => .ok (w.addTimer delayMs inner)
  | .periodWrapper periodMs inner =>
    match w.tlsSelf with
    | none => .error .nullSelf
    | some _ => .ok (w.addPeriodTimer periodMs inner)

/-- Total view of one execution step: run the closure, keeping the worker
unchanged on a (never reached, see the self-pointer safety theorem)
execution error. -/
def Worker.execStep (w : Worker) (t : Task) : Worker :=
  match w.execTask t with
  | .ok w2 => w2
  | .error _ => w

/-- `constexpr size_t kMaxBatchProcessTasks = 16`. -/
def kMaxBatchProcessTasks : Nat := 16

/-- `constexpr size_t kPollerTimeoutMs = 1`. -/
def kPollerTimeoutMs : Nat := 1

/-- `Worker::BatchProcessTasks(max)`: pop-and-execute up to `max` items
from this worker's own lane, stopping early when `Pop` fails, and return
the number of tasks executed together with the remaining lane. -/
def Worker.batchProcessTasks (w : Worker) (lane : List Task) :
    Nat → Except ExecError (Worker × List Task × Nat)
  | 0 => .ok (w, lane, 0)
  | maxn + 1 =>
    match lane with
    | [] => .ok (w, [], 0)
    | t :: rest =>
      match w.execTask t with
      | .error err => .error err
      | .ok w2 =>
        match Worker.batchProcessTasks w2 rest maxn with
        | .error err => .error err
        | .ok (w3, lane2, cnt) => .ok (w3, lane2, cnt + 1)

/-- Modelled from the spec: firing a list of due timers in order,
synchronously on this thread; a repeating timer re-arms itself with its
period after firing. -/
def Worker.fireTimers (w : Worker) : List TimerEntry → Except ExecError Worker
  | [] => .ok w
  | e :: rest =>
    match w.execTask e.callback with
    | .error err => .error err
    | .ok w2 =>
      match e.periodMs with
      | some p => Worker.fireTimers (w2.addPeriodTimer p e.callback) rest
      | none => Worker.fireTimers w2 rest

/-- Modelled from the spec: `TimerWheel::MoveOn()` advances the wheel by
the elapsed time since the last advance and fires (synchronously, on this
thread) every timer whose due time has passed. -/
def Worker.moveOn (w : Worker) (elapsed : Nat) : Except ExecError Worker :=
  let due := w.timers.filter (fun e => decide (e.due ≤ elapsed))
  let remaining := (w.timers.filter (fun e => decide (elapsed < e.due))).map
      (fun e => { e with due := e.due - elapsed })
  Worker.fireTimers { w with timers := remaining } due

/-- Observable events of one worker thread, in program order. -/
inductive Event where
  | setSelf (id : Nat)
  | timerAdvance (elapsed : Nat)
  | ranBatch (n : Nat)
  | poll (timeoutMs : Nat)
deriving DecidableEq, Repr

/-- Whether an event is the thread-entry assignment of `tls_self_`. -/
def Event.isSetSelf : Event → Bool
  | .setSelf _ => true
  | _ => false

/-- Well-formed worker event trace: a sequence of iteration blocks, each
consisting of exactly one timer-wheel advance, then one batch drain of at
most `kMaxBatchProcessTasks` tasks, then one poll whose timeout is `0`
when the batch was full and `kPollerTimeoutMs` otherwise. -/
def IterationTrace : List Event → Prop
  | [] => True
  | .timerAdvance _ :: .ranBatch n :: .poll t :: rest =>
    n ≤ kMaxBatchProcessTasks ∧
    t = (if n < kMaxBatchProcessTasks then kPollerTimeoutMs else 0) ∧
    IterationTrace rest
  | _ => False

/-- The environment a worker thread observes while looping: the stop-flag
value read at the top of iteration `k`, the elapsed time the timer wheel
advance sees at iteration `k`, and the tasks concurrent producers have
pushed into this worker's lane and that become visible at iteration `k`. -/
structure LoopEnv where
  stopFlag : Nat → Bool
  elapsedAt : Nat → Nat
  arrivals : Nat → List Task

/-- One iteration of the `while` body in `Worker::WorkerMainEntry`:
`TimerWheel::MoveOn()`, then `BatchProcessTasks(kMaxBatchProcessTasks)`,
then `poller_->Poll(n < kMaxBatchProcessTasks ? kPollerTimeoutMs : 0)`. -/
def Worker.workerIteration (env : LoopEnv) (k : Nat) (w : Worker)
    (lane : List Task) : Except ExecError (Worker × List Task × List Event) :=
  let lane2 := lane ++ env.arrivals k
  match w.moveOn (env.elapsedAt k) with
  | .error err => .error err
  | .ok w2 =>
    match Worker.batchProcessTasks w2 lane2 kMaxBatchProcessTasks with
    | .error err => .error err
    | .ok (w3, lane3, n) =>
      .ok (w3, lane3,
        [.timerAdvance (env.elapsedAt k), .ranBatch n,
         .poll (if n < kMaxBatchProcessTasks then kPollerTimeoutMs else 0)])

/-- The `while (!stop_flag_)` loop of `Worker::WorkerMainEntry`, run for at
most `fuel` iterations starting at iteration index `k`; returns the final
worker state, the remaining lane, and the event trace produced. -/
def Worker.workerLoop (env : LoopEnv) (w : Worker) (lane : List Task)
    (k : Nat) : Nat → Except ExecError (Worker × List Task × List Event)
  | 0 => .ok (w, lane, [])
  | fuel + 1 =>
    if env.stopFlag k then .ok (w, lane, [])
    else
      match Worker.workerIteration env k w lane with
      | .error err => .error err
      | .ok (w2, lane2, evts) =>
        match Worker.workerLoop env w2 lane2 (k + 1) fuel with
        | .error err => .error err
        | .ok (w3, lane3, evts2) => .ok (w3, lane3, evts ++ evts2)

/-- `Worker::WorkerMainEntry`: assign `tls_self_ = this` first, then run
the stop-flag loop. -/
def Worker.workerMainEntry (env : LoopEnv) (w : Worker) (lane : List Task)
    (fuel : Nat) : Except ExecError (Worker × List Task × List Event) :=
  match Worker.workerLoop env { w with tlsSelf := some w.id } lane 0 fuel with
  | .error err => .error err
  | .ok (w2, lane2, evts) => .ok (w2, lane2, .setSelf w.id :: evts)

/-- `WorkerGroup::PostTask(ClosureFunc<void()>)`: push the closure
untargeted into the shared queue, reporting acceptance. -/
def WorkerGroup.postTask (q : TaskQueue) (func : Task) : Bool × TaskQueue :=
  let r := q.pushAny func
  (r.1.isSome, r.2)

/-- `WorkerGroup::PostTask(size_t worker_id, ClosureFunc<void()>)`: push
the closure targeted at that worker's lane. -/
def WorkerGroup.postTaskTo (q : TaskQueue) (workerId : Nat) (func : Task) :
    Option (Bool × TaskQueue) :=
  q.push workerId func

/-- `WorkerGroup::PostTask(func, delay_ms)`: push, untargeted, the wrapper
closure that will arm a one-shot timer when a worker dequeues it. -/
def WorkerGroup.postTaskDelayed (q : TaskQueue) (func : Task)
    (delayMs : Nat) : Bool × TaskQueue :=
  WorkerGroup.postTask q (.delayWrapper delayMs func)

/-- `WorkerGroup::PostTask(worker_id, func, delay_ms)`: the same wrapper,
targeted at `worker_id`. -/
def WorkerGroup.postTaskDelayedTo (q : TaskQueue) (workerId : Nat)
    (func : Task) (delayMs : Nat) : Option (Bool × TaskQueue) :=
  q.push workerId (.delayWrapper delayMs func)

/-- `WorkerGroup::PostPeriodTask(func, period_ms)`: push, untargeted, the
wrapper closure that will arm a repeating timer when dequeued. -/
def WorkerGroup.postPeriodTask (q : TaskQueue) (func : Task)
    (periodMs : Nat) : Bool × TaskQueue :=
  WorkerGroup.postTask q (.periodWrapper periodMs func)

/-- `WorkerGroup::PostPeriodTask(worker_id, func, period_ms)`: the same
repeating wrapper, targeted. -/
def WorkerGroup.postPeriodTaskTo (q : TaskQueue) (workerId : Nat)
    (func : Task) (periodMs : Nat) : Option (Bool × TaskQueue) :=
  q.push workerId (.periodWrapper periodMs func)

/-- `Worker::PostTask(func)`: `return group_->PostTask(id_, func);`. -/
def Worker.postTask (w : Worker) (q : TaskQueue) (func : Task) :
    Option (Bool × TaskQueue) :=
  WorkerGroup.postTaskTo q w.id func

/-- Whole-system state for the producer/consumer ordering argument: the
shared queue, the per-worker list of tasks executed so far in execution
order (`execd`), and two ghost histories — every accepted task delivered
to each lane in delivery order (`delivered`) and every accepted targeted
post to each lane in post order (`targeted`). -/
structure SysState where
  queue : TaskQueue
  execd : Nat → List Task
  delivered : Nat → List Task
  targeted : Nat → List Task

/-- Interleaved producer/consumer steps: a targeted post, an untargeted
post, and one pop-and-execute step by a worker on its own lane. -/
inductive Action where
  | postTo (w : Nat) (t : Task)
  | post (t : Task)
  | drain (w : Nat)
deriving DecidableEq, Repr

/-- One system step.  Posting uses the queue push operations of
`WorkerGroup::PostTask`; draining is one `Pop` followed by synchronous
execution, so `execd` records the execution order.  A rejected push
changes nothing; an invalid targeted post is a fatal contract violation
and is modelled as leaving the state untouched. -/
def SysState.step (s : SysState) : Action → SysState
  | .postTo w t =>
    match s.queue.push w t with
    | some (true, q2) =>
      { s with queue := q2,
               delivered := fun i =>
                 if i = w then s.delivered i ++ [t] else s.delivered i,
               targeted := fun i =>
                 if i = w then s.targeted i ++ [t] else s.targeted i }
    | some (false, q2) => { s with queue := q2 }
    | none => s
  | .post t =>
    match s.queue.pushAny t with
    | (some i0, q2) =>
      { s with queue := q2,
               delivered := fun i =>
                 if i = i0 then s.delivered i ++ [t] else s.delivered i }
    | (none, q2) => { s with queue := q2 }
  | .drain w =>
    match s.queue.pop w with
    | (some t, q2) =>
      { s with queue := q2,
               execd := fun i =>
                 if i = w then s.execd i ++ [t] else s.execd i }
    | (none, q2) => { s with queue := q2 }

/-- Run a list of system steps in order. -/
def SysState.run (s : SysState) : List Action → SysState
  | [] => s
  | a :: acts => (s.step a).run acts

/-- The state right after `WorkerGroup` construction: `workerNum` empty
lanes sharing one capacity budget, nothing executed or delivered. -/
def SysState.init (workerNum capacity : Nat) : SysState :=
  { queue := { capacity := capacity,
               lanes := List.replicate workerNum [],
               rrCursor := 0 },
    execd := fun _ => [],
    delivered := fun _ => [],
    targeted := fun _ => [] }

/-- Modelled from the spec: a `WorkerGroup::ClientContext` thread-local
cache entry (declared in the header, not under `src/`): the
shared-ownership reference that keeps the `TaskQueue` alive (modelled as
the id of the referenced queue) and the producer handle obtained from
registering with that queue; `operator bool` tests whether the entry has
been populated. -/
structure ClientContext where
  queueHolder : Option Nat
  outQueue : Option Nat
deriving DecidableEq, Repr

/-- `if (!client_ctx)`: the entry is populated once its producer handle is
set. -/
def ClientContext.isRegistered (c : ClientContext) : Bool := c.outQueue.isSome

/-- Modelled from the spec: size of the fast-path array
`tls_client_ctx_cache_` (the constant is declared in the header, not under
`src/`; the theorems do not depend on its value). -/
def kClientCtxCacheSize : Nat := 128

/-- One thread's cache storage: the fixed-size array fast path
`tls_client_ctx_cache_` for `group_id < kClientCtxCacheSize`, and the
map fallback `tls_client_ctx_` beyond it (its `operator[]`
default-constructs an empty entry, so both tiers are total maps into
`ClientContext`). -/
structure ThreadCache where
  fast : Nat → ClientContext
  fallback : Nat → ClientContext

/-- Tier selection of `WorkerGroup::GetOutQueue`:
`group_id_ < tls_client_ctx_cache_.size() ? tls_client_ctx_cache_[group_id_]
: tls_client_ctx_[group_id_]`. -/
def ThreadCache.get (c : ThreadCache) (gid : Nat) : ClientContext :=
  if gid < kClientCtxCacheSize then c.fast gid else c.fallback gid

/-- Writing back a populated entry into whichever tier `gid` selects. -/
def ThreadCache.set (c : ThreadCache) (gid : Nat) (ctx : ClientContext) :
    ThreadCache :=
  if gid < kClientCtxCacheSize then
    { c with fast := fun i => if i = gid then ctx else c.fast i }
  else
    { c with fallback := fun i => if i = gid then ctx else c.fallback i }

/-- A fresh thread cache, with every entry still unpopulated. -/
def ThreadCache.empty : ThreadCache :=
  { fast := fun _ => ⟨none, none⟩, fallback := fun _ => ⟨none, none⟩ }

/-- Modelled from the spec: producer registration bookkeeping of the
shared queue — `RegisterProducer` may be called at any time by any thread
and hands out a fresh handle each call. -/
structure ProducerReg where
  nextProducer : Nat
deriving DecidableEq, Repr

/-- Modelled from the spec: `TaskQueue::RegisterProducer` returns a fresh
producer handle. -/
def ProducerReg.registerProducer (r : ProducerReg) : Nat × ProducerReg :=
  (r.nextProducer, { nextProducer := r.nextProducer + 1 })

/-- `WorkerGroup::GetOutQueue()`: select this thread's cache entry for
`groupId`; if unpopulated, store the shared queue reference and a newly
registered producer handle into it; return the handle together with the
updated thread cache and registration state. -/
def WorkerGroup.getOutQueue (groupId queueRef : Nat) (c : ThreadCache)
    (r : ProducerReg) : Nat × ThreadCache × ProducerReg :=
  match (c.get groupId).outQueue with
  | some h => (h, c, r)
  | none =>
    let hr := r.registerProducer
    (hr.1, c.set groupId ⟨some queueRef, some hr.1⟩, hr.2)

/-- `std::atomic<size_t> WorkerGroup::s_next_group_id_{0}`: the initial
value of the global group-id counter. -/
def WorkerGroup.sNextGroupIdInit : Nat := 0

/-- The modulus of `size_t` arithmetic on the target platform (64-bit):
`std::atomic<size_t>::fetch_add` is defined modular arithmetic. -/
def kSizeTMod : Nat := 2 ^ 64

/-- `group_id_ = s_next_group_id_.fetch_add(1)`: atomically return the
current counter value as the fresh group id and store the incremented
value; both reductions are taken modulo `2 ^ 64` because `size_t`
arithmetic wraps. -/
def WorkerGroup.fetchAddGroupId (counter : Nat) : Nat × Nat :=
  (counter % kSizeTMod, (counter + 1) % kSizeTMod)

/-- The group ids assigned by `n` successive `WorkerGroup` constructions
starting from counter value `counter`. -/
def WorkerGroup.constructGroupIds (counter : Nat) : Nat → List Nat
  | 0 => []
  | n + 1 =>
    (WorkerGroup.fetchAddGroupId counter).1 ::
      WorkerGroup.constructGroupIds (WorkerGroup.fetchAddGroupId counter).2 n

/-- Per-lane ordering invariant: for every lane, the tasks already
executed followed by the tasks still pending in the lane are exactly the
tasks delivered to that lane, in delivery order; and the accepted targeted
posts to that lane occur within the delivery order as a sublist (i.e. in
their posting order). -/
def LaneOrderInv (s : SysState) : Prop :=
  ∀ w, s.execd w ++ s.queue.lane w = s.delivered w ∧
       List.Sublist (s.targeted w) (s.delivered w)

/-! Helper lemmas shared by the claim theorems. -/

theorem getD_set_self {α : Type} (l : List α) (i : Nat) (a d : α)
    (h : i < l.length) : (l.set i a).getD i d = a := by
  simp [List.getD, List.getElem?_set_self, h]

theorem getD_set_ne {α : Type} (l : List α) (i j : Nat) (a d : α)
    (h : j ≠ i) : (l.set i a).getD j d = l.getD j d := by
  simp [List.getD, List.getElem?_set_ne (Ne.symm h)]

theorem getD_of_length_le {α : Type} (l : List α) (i : Nat) (d : α)
    (h : l.length ≤ i) : l.getD i d = d :=
  List.getD_eq_default _ _ h

theorem getD_replicate_nil {α : Type} (n i : Nat) :
    (List.replicate n ([] : List α)).getD i [] = [] := by
  rcases Nat.lt_or_ge i n with h | h
  · simp [List.getD, List.getElem?_replicate, h]
  · exact getD_of_length_le _ _ _ (by simpa using h)

theorem sum_map_length_set {α : Type} (l : List (List α)) (i : Nat)
    (m : List α) (h : i < l.length) :
    ((l.set i m).map List.length).sum + (l.getD i []).length
      = (l.map List.length).sum + m.length := by
  induction l generalizing i with
  | nil => simp at h
  | cons a as ih =>
    cases i with
    | zero => simp [List.getD]; omega
    | succ n =>
      have hn : n < as.length := by simpa using h
      have := ih n hn
      simp only [List.set, List.map, List.sum_cons, List.getD_cons_succ]
      omega

theorem TaskQueue.lt_length_of_lane_ne_nil (q : TaskQueue) (i : Nat)
    (h : q.lane i ≠ []) : i < q.lanes.length := by
  by_contra hc
  exact h (getD_of_length_le _ _ _ (Nat.le_of_not_lt hc))

theorem TaskQueue.push_accept (q : TaskQueue) (wid : Nat) (t : Task)
    (hw : wid < q.lanes.length) (hcap : q.totalSize < q.capacity) :
    q.push wid t = some (true,
      { q with lanes := q.lanes.set wid (q.lane wid ++ [t]) }) := by
  simp [TaskQueue.push, hw, hcap]

theorem TaskQueue.push_reject (q : TaskQueue) (wid : Nat) (t : Task)
    (hw : wid < q.lanes.length) (hcap : q.capacity ≤ q.totalSize) :
    q.push wid t = some (false, q) := by
  simp [TaskQueue.push, hw, Nat.not_lt.mpr hcap]

theorem TaskQueue.push_invalid (q : TaskQueue) (wid : Nat) (t : Task)
    (hw : q.lanes.length ≤ wid) : q.push wid t = none := by
  simp [TaskQueue.push, Nat.not_lt.mpr hw]

theorem TaskQueue.pushAny_accept (q : TaskQueue) (t : Task)
    (hlen : 0 < q.lanes.length) (hcap : q.totalSize < q.capacity) :
    q.pushAny t = (some (q.rrCursor % q.lanes.length),
      { q with lanes := q.lanes.set (q.rrCursor % q.lanes.length)
                 (q.lane (q.rrCursor % q.lanes.length) ++ [t]),
               rrCursor := q.rrCursor + 1 }) := by
  simp [TaskQueue.pushAny, hlen, hcap]

theorem TaskQueue.pushAny_reject (q : TaskQueue) (t : Task)
    (h : ¬(0 < q.lanes.length ∧ q.totalSize < q.capacity)) :
    q.pushAny t = (none, q) := by
  simp only [TaskQueue.pushAny, if_neg h]

theorem TaskQueue.pop_nil (q : TaskQueue) (wid : Nat)
    (h : q.lane wid = []) : q.pop wid = (none, q) := by
  simp [TaskQueue.pop, h]

theorem TaskQueue.pop_cons (q : TaskQueue) (wid : Nat) (x : Task)
    (rest : List Task) (h : q.lane wid = x :: rest) :
    q.pop wid = (some x, { q with lanes := q.lanes.set wid rest }) := by
  simp [TaskQueue.pop, h]

theorem TaskQueue.totalSize_set_append (q : TaskQueue) (wid : Nat)
    (t : Task) (hw : wid < q.lanes.length) :
    (TaskQueue.mk q.capacity (q.lanes.set wid (q.lane wid ++ [t]))
        q.rrCursor).totalSize = q.totalSize + 1 := by
  have hs := sum_map_length_set q.lanes wid (q.lane wid ++ [t]) hw
  simp only [TaskQueue.totalSize, TaskQueue.lane, List.length_append,
    List.length_cons, List.length_nil] at hs ⊢
  omega

theorem TaskQueue.totalSize_set_tail (q : TaskQueue) (wid : Nat) (x : Task)
    (rest : List Task) (h : q.lane wid = x :: rest) :
    (TaskQueue.mk q.capacity (q.lanes.set wid rest) q.rrCursor).totalSize + 1
      = q.totalSize := by
  have hw : wid < q.lanes.length :=
    q.lt_length_of_lane_ne_nil wid (by simp [h])
  have hs := sum_map_length_set q.lanes wid rest hw
  rw [show q.lanes.getD wid [] = x :: rest from h] at hs
  simp only [TaskQueue.totalSize, List.length_cons] at hs ⊢
  omega

theorem Worker.execTask_ok_of_some (w : Worker) (t : Task) (i : Nat)
    (h : w.tlsSelf = some i) :
    ∃ w2, w.execTask t = Except.ok w2 ∧ w2.tlsSelf = some i := by
  cases t with
  | plain tag => exact ⟨_, rfl, h⟩
  | delayWrapper delayMs inner =>
    exact ⟨w.addTimer delayMs inner, by simp [Worker.execTask, h],
      by simpa [Worker.addTimer] using h⟩
  | periodWrapper periodMs inner =>
    exact ⟨w.addPeriodTimer periodMs inner, by simp [Worker.execTask, h],
      by simpa [Worker.addPeriodTimer] using h⟩

theorem Worker.fireTimers_ok_of_some (es : List TimerEntry) (w : Worker)
    (i : Nat) (h : w.tlsSelf = some i) :
    ∃ w2, Worker.fireTimers w es = Except.ok w2 ∧ w2.tlsSelf = some i := by
  induction es generalizing w with
  | nil => exact ⟨w, rfl, h⟩
  | cons e rest ih =>
    obtain ⟨w2, hw2, hself⟩ := Worker.execTask_ok_of_some w e.callback i h
    cases hp : e.periodMs with
    | some p =>
      obtain ⟨w3, hw3, h3⟩ := ih (w2.addPeriodTimer p e.callback)
        (by simpa [Worker.addPeriodTimer] using hself)
      exact ⟨w3, by simp [Worker.fireTimers, hw2, hp, hw3], h3⟩
    | none =>
      obtain ⟨w3, hw3, h3⟩ := ih w2 hself
      exact ⟨w3, by simp [Worker.fireTimers, hw2, hp, hw3], h3⟩

theorem Worker.moveOn_ok_of_some (w : Worker) (elapsed i : Nat)
    (h : w.tlsSelf = some i) :
    ∃ w2, w.moveOn elapsed = Except.ok w2 ∧ w2.tlsSelf = some i := by
  exact Worker.fireTimers_ok_of_some _ _ i h

theorem Worker.batchProcessTasks_eq (maxn : Nat) :
    ∀ (w : Worker) (lane : List Task) (i : Nat), w.tlsSelf = some i →
    Worker.batchProcessTasks w lane maxn
      = Except.ok ((lane.take (min maxn lane.length)).foldl Worker.execStep w,
          lane.drop (min maxn lane.length), min maxn lane.length) := by
  induction maxn with
  | zero => intro w lane i h; simp [Worker.batchProcessTasks]
  | succ n ih =>
    intro w lane i h
    cases lane with
    | nil => simp [Worker.batchProcessTasks]
    | cons t rest =>
      obtain ⟨w2, hw2, hself⟩ := Worker.execTask_ok_of_some w t i h
      have hstep : Worker.execStep w t = w2 := by simp [Worker.execStep, hw2]
      simp only [Worker.batchProcessTasks, hw2, ih w2 rest i hself,
        List.length_cons, Nat.succ_min_succ, List.take_succ_cons,
        List.drop_succ_cons, List.foldl_cons, hstep]

theorem Worker.batchProcessTasks_tlsSelf (maxn : Nat) :
    ∀ (w : Worker) (lane : List Task) (i : Nat), w.tlsSelf = some i →
    ((lane.take (min maxn lane.length)).foldl Worker.execStep w).tlsSelf
      = some i := by
  induction maxn with
  | zero => intro w lane i h; simpa using h
  | succ n ih =>
    intro w lane i h
    cases lane with
    | nil => simpa using h
    | cons t rest =>
      obtain ⟨w2, hw2, hself⟩ := Worker.execTask_ok_of_some w t i h
      have hstep : Worker.execStep w t = w2 := by simp [Worker.execStep, hw2]
      simpa [Nat.succ_min_succ, hstep] using ih w2 rest i hself

theorem Worker.workerIteration_ok (env : LoopEnv) (k : Nat) (w : Worker)
    (lane : List Task) (i : Nat) (h : w.tlsSelf = some i) :
    ∃ w2 lane2 n,
      Worker.workerIteration env k w lane
        = Except.ok (w2, lane2,
            [Event.timerAdvance (env.elapsedAt k), Event.ranBatch n,
             Event.poll (if n < kMaxBatchProcessTasks then kPollerTimeoutMs
                         else 0)]) ∧
      w2.tlsSelf = some i ∧ n ≤ kMaxBatchProcessTasks := by
  obtain ⟨wm, hwm, hmself⟩ := Worker.moveOn_ok_of_some w (env.elapsedAt k) i h
  refine ⟨((lane ++ env.arrivals k).take
      (min kMaxBatchProcessTasks (lane ++ env.arrivals k).length)).foldl
        Worker.execStep wm,
    (lane ++ env.arrivals k).drop
      (min kMaxBatchProcessTasks (lane ++ env.arrivals k).length),
    min kMaxBatchProcessTasks (lane ++ env.arrivals k).length,
    ?_, ?_, Nat.min_le_left _ _⟩
  · simp only [Worker.workerIteration, hwm,
      Worker.batchProcessTasks_eq kMaxBatchProcessTasks wm _ i hmself]
  · exact Worker.batchProcessTasks_tlsSelf kMaxBatchProcessTasks wm _ i hmself

theorem Worker.workerLoop_ok (fuel : Nat) :
    ∀ (env : LoopEnv) (w : Worker) (lane : List Task) (k i : Nat),
      w.tlsSelf = some i →
      ∃ w2 lane2 evts,
        Worker.workerLoop env w lane k fuel = Except.ok (w2, lane2, evts) ∧
        w2.tlsSelf = some i ∧
        evts.filter Event.isSetSelf = [] ∧
        IterationTrace evts := by
  induction fuel with
  | zero => intro env w lane k i h; exact ⟨w, lane, [], rfl, h, rfl, trivial⟩
  | succ n ih =>
    intro env w lane k i h
    by_cases hstop : env.stopFlag k
    · exact ⟨w, lane, [], by simp [Worker.workerLoop, hstop], h, rfl, trivial⟩
    · obtain ⟨w2, lane2, m, hit, h2, hm⟩ :=
        Worker.workerIteration_ok env k w lane i h
      obtain ⟨w3, lane3, evts2, hloop, h3, hfilter, htrace⟩ :=
        ih env w2 lane2 (k + 1) i h2
      refine ⟨w3, lane3,
        [Event.timerAdvance (env.elapsedAt k), Event.ranBatch m,
         Event.poll (if m < kMaxBatchProcessTasks then kPollerTimeoutMs
                     else 0)] ++ evts2, ?_, h3, ?_, ?_⟩
      · simp [Worker.workerLoop, hstop, hit, hloop]
      · simpa [Event.isSetSelf] using hfilter
      · exact ⟨hm, rfl, htrace⟩

theorem SysState.step_preserves (s : SysState) (a : Action)
    (h : LaneOrderInv s) : LaneOrderInv (s.step a) := by
  cases a with
  | postTo w t =>
    rcases Nat.lt_or_ge w s.queue.lanes.length with hw | hw
    · rcases Nat.lt_or_ge s.queue.totalSize s.queue.capacity with hcap | hcap
      · intro j
        have h1 := (h j).1
        simp only [SysState.step, TaskQueue.push_accept s.queue w t hw hcap]
        simp only [TaskQueue.lane] at h1 ⊢
        by_cases hj : j = w
        · subst hj
          refine ⟨?_, ?_⟩
          · rw [if_pos rfl, getD_set_self _ _ _ _ hw, ← List.append_assoc, h1]
          · rw [if_pos rfl, if_pos rfl]
            exact List.Sublist.append (h j).2 (List.Sublist.refl _)
        · refine ⟨?_, ?_⟩
          · rw [if_neg hj, getD_set_ne _ _ _ _ _ hj, h1]
          · rw [if_neg hj, if_neg hj]
            exact (h j).2
      · intro j
        simp only [SysState.step, TaskQueue.push_reject s.queue w t hw hcap]
        exact h j
    · intro j
      simp only [SysState.step, TaskQueue.push_invalid s.queue w t hw]
      exact h j
  | post t =>
    by_cases hc : 0 < s.queue.lanes.length ∧ s.queue.totalSize < s.queue.capacity
    · intro j
      have h1 := (h j).1
      have hlt : s.queue.rrCursor % s.queue.lanes.length < s.queue.lanes.length :=
        Nat.mod_lt _ hc.1
      simp only [SysState.step, TaskQueue.pushAny_accept s.queue t hc.1 hc.2]
      simp only [TaskQueue.lane] at h1 ⊢
      by_cases hj : j = s.queue.rrCursor % s.queue.lanes.length
      · subst hj
        refine ⟨?_, ?_⟩
        · rw [if_pos rfl, getD_set_self _ _ _ _ hlt, ← List.append_assoc, h1]
        · rw [if_pos rfl]
          exact List.Sublist.trans
            (h (s.queue.rrCursor % s.queue.lanes.length)).2
            (List.sublist_append_left _ _)
      · refine ⟨?_, ?_⟩
        · rw [if_neg hj, getD_set_ne _ _ _ _ _ hj, h1]
        · rw [if_neg hj]
          exact (h j).2
    · intro j
      simp only [SysState.step, TaskQueue.pushAny_reject s.queue t hc]
      exact h j
  | drain w =>
    cases hl : s.queue.lane w with
    | nil =>
      intro j
      simp only [SysState.step, TaskQueue.pop_nil s.queue w hl]
      exact h j
    | cons x rest =>
      have hw : w < s.queue.lanes.length :=
        s.queue.lt_length_of_lane_ne_nil w (by simp [hl])
      intro j
      have h1 := (h j).1
      simp only [SysState.step, TaskQueue.pop_cons s.queue w x rest hl]
      simp only [TaskQueue.lane] at h1 ⊢
      by_cases hj : j = w
      · subst hj
        refine ⟨?_, (h j).2⟩
        rw [if_pos rfl, getD_set_self _ _ _ _ hw, List.append_assoc]
        rw [show s.queue.lanes.getD j [] = x :: rest from hl] at h1
        simpa using h1
      · refine ⟨?_, (h j).2⟩
        rw [if_neg hj, getD_set_ne _ _ _ _ _ hj, h1]

theorem SysState.run_preserves (acts : List Action) :
    ∀ (s : SysState), LaneOrderInv s → LaneOrderInv (s.run acts) := by
  induction acts with
  | nil => intro s h; exact h
  | cons a rest ih => intro s h; exact ih _ (SysState.step_preserves s a h)

theorem SysState.init_inv (workerNum capacity : Nat) :
    LaneOrderInv (SysState.init workerNum capacity) := by
  intro w
  refine ⟨?_, List.Sublist.refl _⟩
  simp only [SysState.init, TaskQueue.lane]
  rw [getD_replicate_nil]
  rfl

theorem ThreadCache.get_set_self (c : ThreadCache) (gid : Nat)
    (ctx : ClientContext) : (c.set gid ctx).get gid = ctx := by
  by_cases h : gid < kClientCtxCacheSize <;>
    simp [ThreadCache.get, ThreadCache.set, h]

theorem WorkerGroup.constructGroupIds_mod (n : Nat) :
    ∀ c, WorkerGroup.constructGroupIds (c % kSizeTMod) n
      = (List.range' c n).map (fun x => x % kSizeTMod) := by
  induction n with
  | zero => intro c; rfl
  | succ m ih =>
    intro c
    have h1 : (c % kSizeTMod + 1) % kSizeTMod = (c + 1) % kSizeTMod :=
      Nat.mod_add_mod c kSizeTMod 1
    calc WorkerGroup.constructGroupIds (c % kSizeTMod) (m + 1)
        = c % kSizeTMod % kSizeTMod ::
            WorkerGroup.constructGroupIds ((c % kSizeTMod + 1) % kSizeTMod)
              m := rfl
      _ = c % kSizeTMod ::
            WorkerGroup.constructGroupIds ((c + 1) % kSizeTMod) m := by
          rw [h1]
          simp
      _ = c % kSizeTMod ::
            (List.range' (c + 1) m).map (fun x => x % kSizeTMod) := by
          rw [ih (c + 1)]
      _ = (List.range' c (m + 1)).map (fun x => x % kSizeTMod) := by
          rw [List.range'_succ]
          rfl

/-! Claim theorems. -/

/-- C1: within one lane, posts and pop-and-execute steps may be
interleaved arbitrarily from the freshly constructed group; always, the
executed sequence of a lane followed by its pending tasks equals the
delivery history of that lane, the accepted targeted posts to that lane
form a sublist of the delivery history (so they keep their relative
posted order), and the executed sequence is a prefix of the delivery
history — hence tasks targeted at a fixed worker execute in the relative
order they were posted, FIFO per lane. -/
theorem targetedPostsExecuteFifo (workerNum capacity : Nat)
    (acts : List Action) (w : Nat) :
    ((SysState.init workerNum capacity).run acts).execd w ++
        ((SysState.init workerNum capacity).run acts).queue.lane w
      = ((SysState.init workerNum capacity).run acts).delivered w ∧
    List.Sublist (((SysState.init workerNum capacity).run acts).targeted w)
      (((SysState.init workerNum capacity).run acts).delivered w) ∧
    ∃ pending,
      ((SysState.init workerNum capacity).run acts).execd w ++ pending
        = ((SysState.init workerNum capacity).run acts).delivered w := by
  have hinv :=
    SysState.run_preserves acts _ (SysState.init_inv workerNum capacity)
  exact ⟨(hinv w).1, (hinv w).2, _, (hinv w).1⟩

/-- C5: in one batch the worker pops at most `max` items from its own
lane, executes each popped item synchronously in FIFO pop order (the left
fold of execution over exactly the popped prefix), stops as soon as the
lane is empty, and returns the exact number of tasks executed; at the
run-loop call site `max = kMaxBatchProcessTasks = 16`. -/
theorem batchDrainExactCount (w : Worker) (lane : List Task) (i : Nat)
    (h : w.tlsSelf = some i) :
    Worker.batchProcessTasks w lane kMaxBatchProcessTasks
      = Except.ok
          ((lane.take (min kMaxBatchProcessTasks lane.length)).foldl
             Worker.execStep w,
           lane.drop (min kMaxBatchProcessTasks lane.length),
           min kMaxBatchProcessTasks lane.length) ∧
    min kMaxBatchProcessTasks lane.length ≤ kMaxBatchProcessTasks :=
  ⟨Worker.batchProcessTasks_eq _ w lane i h, Nat.min_le_left _ _⟩

/-- Witness for C5: a worker with its self pointer set drains a 2-task
lane completely, in order, reporting count 2. -/
theorem batchDrainExactCount_witness :
    (Worker.mk 0 (some 0) [] []).tlsSelf = some 0 ∧
    (Worker.batchProcessTasks (Worker.mk 0 (some 0) [] [])
        [Task.plain 4, Task.plain 9] kMaxBatchProcessTasks
      = Except.ok
          (([Task.plain 4, Task.plain 9].take
              (min kMaxBatchProcessTasks
                ([Task.plain 4, Task.plain 9] : List Task).length)).foldl
             Worker.execStep (Worker.mk 0 (some 0) [] []),
           ([Task.plain 4, Task.plain 9] : List Task).drop
             (min kMaxBatchProcessTasks
               ([Task.plain 4, Task.plain 9] : List Task).length),
           min kMaxBatchProcessTasks
             ([Task.plain 4, Task.plain 9] : List Task).length) ∧
     min kMaxBatchProcessTasks
         ([Task.plain 4, Task.plain 9] : List Task).length
       ≤ kMaxBatchProcessTasks) :=
  ⟨rfl, batchDrainExactCount (Worker.mk 0 (some 0) [] [])
    [Task.plain 4, Task.plain 9] 0 rfl⟩

/-- C7 counterexample: `s_next_group_id_` is a `std::atomic<size_t>`, so
`fetch_add(1)` wraps modulo `2 ^ 64`; construction number `2 ^ 64` is
assigned id 0 again, the same id as the very first group, so over
`2 ^ 64 + 1` constructions the assigned ids are not pairwise distinct —
the claim that ids are never reused fails as stated. -/
theorem groupIdsWrapReuse :
    ¬ (WorkerGroup.constructGroupIds WorkerGroup.sNextGroupIdInit
        (kSizeTMod + 1)).Nodup := by
  intro hnd
  have he : WorkerGroup.constructGroupIds WorkerGroup.sNextGroupIdInit
      (kSizeTMod + 1)
      = (List.range' 0 (kSizeTMod + 1)).map (fun x => x % kSizeTMod) := by
    have h0 := WorkerGroup.constructGroupIds_mod (kSizeTMod + 1) 0
    rw [Nat.zero_mod] at h0
    exact h0
  have hcat : List.range' 0 (kSizeTMod + 1)
      = List.range' 0 kSizeTMod ++ [kSizeTMod] := by
    simpa using @List.range'_concat 1 0 kSizeTMod
  rw [he, hcat, List.map_append] at hnd
  have h0mem : (0 : Nat)
      ∈ (List.range' 0 kSizeTMod).map (fun x => x % kSizeTMod) := by
    refine List.mem_map.mpr ⟨0, ?_, Nat.zero_mod _⟩
    have hpos : 0 < kSizeTMod := Nat.two_pow_pos 64
    exact List.mem_range'_1.mpr ⟨Nat.le_refl 0, by simpa using hpos⟩
  have hsub : List.Sublist ([0, 0] : List Nat)
      ((List.range' 0 kSizeTMod).map (fun x => x % kSizeTMod)
        ++ [kSizeTMod].map (fun x => x % kSizeTMod)) := by
    have htail : ([kSizeTMod] : List Nat).map (fun x => x % kSizeTMod)
        = [0] := by simp
    rw [htail]
    exact List.Sublist.append (List.singleton_sublist.mpr h0mem)
      (List.Sublist.refl [0])
  have hbad : ([0, 0] : List Nat).Nodup := hnd.sublist hsub
  simp at hbad

/-- C7 (amended): the group-id counter starts at 0 and `fetch_add(1)`
hands out 0, 1, 2, … to successive constructions; because `size_t`
arithmetic wraps modulo `2 ^ 64`, uniqueness holds for the first
`2 ^ 64` constructions: up to that bound the assigned ids are exactly
`List.range n`, pairwise distinct and strictly increasing, so within the
bound no id is reused and any two groups differ. -/
theorem groupIdsUniqueMonotone (n : Nat) (h : n ≤ kSizeTMod) :
    WorkerGroup.constructGroupIds WorkerGroup.sNextGroupIdInit n
      = List.range n ∧
    (WorkerGroup.constructGroupIds WorkerGroup.sNextGroupIdInit n).Nodup ∧
    (WorkerGroup.constructGroupIds WorkerGroup.sNextGroupIdInit n).Pairwise
      (· < ·) := by
  have he : WorkerGroup.constructGroupIds WorkerGroup.sNextGroupIdInit n
      = (List.range' 0 n).map (fun x => x % kSizeTMod) := by
    have h0 := WorkerGroup.constructGroupIds_mod n 0
    rw [Nat.zero_mod] at h0
    exact h0
  have hmap : (List.range' 0 n).map (fun x => x % kSizeTMod)
      = List.range' 0 n := by
    conv_rhs => rw [← List.map_id (List.range' 0 n)]
    refine List.map_congr_left ?_
    intro x hx
    have hlt : x < n := by simpa using (List.mem_range'_1.mp hx).2
    exact Nat.mod_eq_of_lt (Nat.lt_of_lt_of_le hlt h)
  have he2 : WorkerGroup.constructGroupIds WorkerGroup.sNextGroupIdInit n
      = List.range n := by
    rw [he, hmap, List.range_eq_range']
  refine ⟨he2, ?_, ?_⟩
  · rw [he2]; exact List.nodup_range n
  · rw [he2]; exact List.pairwise_lt_range n

/-- Witness for C7: the first three constructions get ids 0, 1, 2,
distinct and increasing. -/
theorem groupIdsUniqueMonotone_witness :
    3 ≤ kSizeTMod ∧
    (WorkerGroup.constructGroupIds WorkerGroup.sNextGroupIdInit 3
        = List.range 3 ∧
     (WorkerGroup.constructGroupIds WorkerGroup.sNextGroupIdInit 3).Nodup ∧
     (WorkerGroup.constructGroupIds
        WorkerGroup.sNextGroupIdInit 3).Pairwise (· < ·)) :=
  ⟨by decide, groupIdsUniqueMonotone 3 (by decide)⟩

/-- C8: a targeted post naming a `worker_id` that is not a valid lane
index (`worker_id ≥ laneNum`) is a contract violation signalled fatally
(`none`), for the immediate, delayed and periodic targeted variants
alike: no boolean result is produced, no state results, so the task is
neither silently dropped into oblivion nor misrouted to another lane. -/
theorem invalidWorkerIdFatal (q : TaskQueue) (wid : Nat) (func : Task)
    (delayMs periodMs : Nat) (h : q.laneNum ≤ wid) :
    WorkerGroup.postTaskTo q wid func = none ∧
    WorkerGroup.postTaskDelayedTo q wid func delayMs = none ∧
    WorkerGroup.postPeriodTaskTo q wid func periodMs = none :=
  ⟨TaskQueue.push_invalid q wid _ h, TaskQueue.push_invalid q wid _ h,
   TaskQueue.push_invalid q wid _ h⟩

/-- Witness for C8: posting to worker 2 of a 2-worker group is fatal. -/
theorem invalidWorkerIdFatal_witness :
    (TaskQueue.mk 4 [[], []] 0).laneNum ≤ 2 ∧
    (WorkerGroup.postTaskTo (TaskQueue.mk 4 [[], []] 0) 2 (Task.plain 1)
        = none ∧
     WorkerGroup.postTaskDelayedTo (TaskQueue.mk 4 [[], []] 0) 2
        (Task.plain 1) 5 = none ∧
     WorkerGroup.postPeriodTaskTo (TaskQueue.mk 4 [[], []] 0) 2
        (Task.plain 1) 7 = none) :=
  ⟨by decide,
   invalidWorkerIdFatal (TaskQueue.mk 4 [[], []] 0) 2 (Task.plain 1) 5 7
     (by decide)⟩

/-- C9: `Worker::PostTask(func)` delegates to the group as
`group_->PostTask(id_, func)`: it is the targeted post at this worker's
own lane, with the identical accepted/rejected result and queue effect. -/
theorem workerPostTaskDelegates (w : Worker) (q : TaskQueue) (func : Task) :
    Worker.postTask w q func = WorkerGroup.postTaskTo q w.id func := rfl

/-- C2: the worker's run loop repeats until the stop flag is observed
true — observing it true makes the loop return at once; any completed run
produces a trace of iteration blocks, each in order: one timer-wheel
advance, one batch drain of at most 16 tasks, one poll whose timeout is
`0` exactly when the batch was full and `kPollerTimeoutMs = 1` otherwise
(`IterationTrace`); and when the flag reads false, the next iteration
begins with the timer-wheel advance. -/
theorem runLoopIterationStructure (env : LoopEnv) (w : Worker)
    (lane : List Task) (k fuel i : Nat) (h : w.tlsSelf = some i) :
    (∃ w2 lane2 evts,
        Worker.workerLoop env w lane k fuel = Except.ok (w2, lane2, evts) ∧
        IterationTrace evts) ∧
    (env.stopFlag k = true →
        Worker.workerLoop env w lane k (fuel + 1)
          = Except.ok (w, lane, [])) ∧
    (env.stopFlag k = false →
        ∀ w2 lane2 evts,
          Worker.workerLoop env w lane k (fuel + 1)
              = Except.ok (w2, lane2, evts) →
          evts.head? = some (Event.timerAdvance (env.elapsedAt k))) := by
  refine ⟨?_, ?_, ?_⟩
  · obtain ⟨w2, lane2, evts, hq, -, -, htrace⟩ :=
      Worker.workerLoop_ok fuel env w lane k i h
    exact ⟨w2, lane2, evts, hq, htrace⟩
  · intro hs
    simp [Worker.workerLoop, hs]
  · intro hs w2 lane2 evts heq
    obtain ⟨wa, lanea, m, hit, h2, -⟩ :=
      Worker.workerIteration_ok env k w lane i h
    obtain ⟨wb, laneb, evts2, hloop, -, -, -⟩ :=
      Worker.workerLoop_ok fuel env wa lanea (k + 1) i h2
    have hv : Worker.workerLoop env w lane k (fuel + 1)
        = Except.ok (wb, laneb,
            [Event.timerAdvance (env.elapsedAt k), Event.ranBatch m,
             Event.poll (if m < kMaxBatchProcessTasks then kPollerTimeoutMs
                         else 0)] ++ evts2) := by
      simp [Worker.workerLoop, hs, hit, hloop]
    rw [hv] at heq
    simp only [Except.ok.injEq, Prod.mk.injEq] at heq
    rw [← heq.2.2]
    rfl

/-- Witness for C2: a concrete environment that stops at iteration 1,
with an idle worker whose self pointer is set. -/
theorem runLoopIterationStructure_witness :
    (Worker.mk 3 (some 3) [] []).tlsSelf = some 3 ∧
    ((∃ w2 lane2 evts,
        Worker.workerLoop
            (LoopEnv.mk (fun k => decide (1 ≤ k)) (fun _ => 0) (fun _ => []))
            (Worker.mk 3 (some 3) [] []) [] 0 1
          = Except.ok (w2, lane2, evts) ∧
        IterationTrace evts) ∧
     ((LoopEnv.mk (fun k => decide (1 ≤ k)) (fun _ => 0)
          (fun _ => [])).stopFlag 0 = true →
        Worker.workerLoop
            (LoopEnv.mk (fun k => decide (1 ≤ k)) (fun _ => 0) (fun _ => []))
            (Worker.mk 3 (some 3) [] []) [] 0 (1 + 1)
          = Except.ok (Worker.mk 3 (some 3) [] [], [], [])) ∧
     ((LoopEnv.mk (fun k => decide (1 ≤ k)) (fun _ => 0)
          (fun _ => [])).stopFlag 0 = false →
        ∀ w2 lane2 evts,
          Worker.workerLoop
              (LoopEnv.mk (fun k => decide (1 ≤ k)) (fun _ => 0)
                (fun _ => []))
              (Worker.mk 3 (some 3) [] []) [] 0 (1 + 1)
            = Except.ok (w2, lane2, evts) →
          evts.head? = some (Event.timerAdvance
            ((LoopEnv.mk (fun k => decide (1 ≤ k)) (fun _ => 0)
               (fun _ => [])).elapsedAt 0)))) :=
  ⟨rfl, runLoopIterationStructure
    (LoopEnv.mk (fun k => decide (1 ≤ k)) (fun _ => 0) (fun _ => []))
    (Worker.mk 3 (some 3) [] []) [] 0 1 3 rfl⟩

/-- C10: `Worker::WorkerMainEntry` assigns the thread-local self pointer
exactly once, as its very first action, before any timer fires or task
runs: for every environment (arbitrary arrivals, timers and stop-flag
observations) the whole run returns `ok` — in particular no wrapper task
ever dereferences a null `Worker::self()` — the final self pointer still
holds this worker, the trace starts with the assignment event, and that
event occurs exactly once in the trace. -/
theorem tlsSelfAssignedOnceBeforeTasks (env : LoopEnv) (w : Worker)
    (lane : List Task) (fuel : Nat) :
    ∃ w2 lane2 evts,
      Worker.workerMainEntry env w lane fuel = Except.ok (w2, lane2, evts) ∧
      w2.tlsSelf = some w.id ∧
      evts.head? = some (Event.setSelf w.id) ∧
      evts.filter Event.isSetSelf = [Event.setSelf w.id] := by
  obtain ⟨w2, lane2, evts, hloop, hself, hfilter, -⟩ :=
    Worker.workerLoop_ok fuel env { w with tlsSelf := some w.id } lane 0
      w.id rfl
  refine ⟨w2, lane2, Event.setSelf w.id :: evts, ?_, hself, rfl, ?_⟩
  · simp [Worker.workerMainEntry, hloop]
  · simp [List.filter, Event.isSetSelf, hfilter]

/-- C3: `post(task, delay_ms)` pushes only the wrapper closure — accepted
untargeted posts append `delayWrapper delay_ms task` to some valid lane,
accepted targeted ones to the named lane — and no timer is armed by the
post itself; the timer is armed only when the dequeuing worker executes
the wrapper, at which point that worker arms a one-shot timer for
`delay_ms` on itself with the inner task as callback (its timer list
gains exactly that one-shot entry and nothing executes yet);
`post_periodic` uses the identical indirection, arming a repeating
timer. -/
theorem delayedPostArmsTimerAtDequeue (q : TaskQueue) (wid : Nat)
    (func : Task) (delayMs periodMs : Nat) (w : Worker) (i : Nat)
    (hself : w.tlsSelf = some i) :
    ((WorkerGroup.postTaskDelayed q func delayMs).1 = true →
      ∃ laneIdx, laneIdx < q.laneNum ∧
        (WorkerGroup.postTaskDelayed q func delayMs).2.lane laneIdx
          = q.lane laneIdx ++ [Task.delayWrapper delayMs func]) ∧
    (∀ b q2,
      WorkerGroup.postTaskDelayedTo q wid func delayMs = some (b, q2) →
      b = true →
      q2.lane wid = q.lane wid ++ [Task.delayWrapper delayMs func]) ∧
    (∀ b q2,
      WorkerGroup.postPeriodTaskTo q wid func periodMs = some (b, q2) →
      b = true →
      q2.lane wid = q.lane wid ++ [Task.periodWrapper periodMs func]) ∧
    w.execTask (Task.delayWrapper delayMs func)
      = Except.ok { w with timers := w.timers ++ [⟨delayMs, none, func⟩] } ∧
    w.execTask (Task.periodWrapper periodMs func)
      = Except.ok
          { w with timers := w.timers ++ [⟨periodMs, some periodMs, func⟩] } := by
  refine ⟨?_, ?_, ?_, ?_, ?_⟩
  · intro ht
    by_cases hc : 0 < q.lanes.length ∧ q.totalSize < q.capacity
    · refine ⟨q.rrCursor % q.lanes.length, Nat.mod_lt _ hc.1, ?_⟩
      simp only [WorkerGroup.postTaskDelayed, WorkerGroup.postTask,
        TaskQueue.pushAny_accept q _ hc.1 hc.2]
      simp only [TaskQueue.lane]
      exact getD_set_self _ _ _ _ (Nat.mod_lt _ hc.1)
    · exfalso
      simp only [WorkerGroup.postTaskDelayed, WorkerGroup.postTask,
        TaskQueue.pushAny_reject q _ hc] at ht
      simp at ht
  · intro b q2 heq hb
    subst hb
    rcases Nat.lt_or_ge wid q.lanes.length with hwlt | hwge
    · rcases Nat.lt_or_ge q.totalSize q.capacity with hcap | hcap
      · rw [WorkerGroup.postTaskDelayedTo,
          TaskQueue.push_accept q wid _ hwlt hcap] at heq
        simp only [Option.some.injEq, Prod.mk.injEq] at heq
        rw [← heq.2]
        simp only [TaskQueue.lane]
        exact getD_set_self _ _ _ _ hwlt
      · rw [WorkerGroup.postTaskDelayedTo,
          TaskQueue.push_reject q wid _ hwlt hcap] at heq
        simp at heq
    · rw [WorkerGroup.postTaskDelayedTo,
        TaskQueue.push_invalid q wid _ hwge] at heq
      cases heq
  · intro b q2 heq hb
    subst hb
    rcases Nat.lt_or_ge wid q.lanes.length with hwlt | hwge
    · rcases Nat.lt_or_ge q.totalSize q.capacity with hcap | hcap
      · rw [WorkerGroup.postPeriodTaskTo,
          TaskQueue.push_accept q wid _ hwlt hcap] at heq
        simp only [Option.some.injEq, Prod.mk.injEq] at heq
        rw [← heq.2]
        simp only [TaskQueue.lane]
        exact getD_set_self _ _ _ _ hwlt
      · rw [WorkerGroup.postPeriodTaskTo,
          TaskQueue.push_reject q wid _ hwlt hcap] at heq
        simp at heq
    · rw [WorkerGroup.postPeriodTaskTo,
        TaskQueue.push_invalid q wid _ hwge] at heq
      cases heq
  · simp [Worker.execTask, hself, Worker.addTimer]
  · simp [Worker.execTask, hself, Worker.addPeriodTimer]

/-- Witness for C3: a 1-lane queue with room, worker 0 with its self
pointer set, inner task `plain 7`, delay 5, period 3. -/
theorem delayedPostArmsTimerAtDequeue_witness :
    (Worker.mk 0 (some 0) [] []).tlsSelf = some 0 ∧
    (((WorkerGroup.postTaskDelayed (TaskQueue.mk 2 [[]] 0)
          (Task.plain 7) 5).1 = true →
      ∃ laneIdx, laneIdx < (TaskQueue.mk 2 [[]] 0).laneNum ∧
        (WorkerGroup.postTaskDelayed (TaskQueue.mk 2 [[]] 0)
            (Task.plain 7) 5).2.lane laneIdx
          = (TaskQueue.mk 2 [[]] 0).lane laneIdx
              ++ [Task.delayWrapper 5 (Task.plain 7)]) ∧
    (∀ b q2,
      WorkerGroup.postTaskDelayedTo (TaskQueue.mk 2 [[]] 0) 0
          (Task.plain 7) 5 = some (b, q2) →
      b = true →
      q2.lane 0 = (TaskQueue.mk 2 [[]] 0).lane 0
        ++ [Task.delayWrapper 5 (Task.plain 7)]) ∧
    (∀ b q2,
      WorkerGroup.postPeriodTaskTo (TaskQueue.mk 2 [[]] 0) 0
          (Task.plain 7) 3 = some (b, q2) →
      b = true →
      q2.lane 0 = (TaskQueue.mk 2 [[]] 0).lane 0
        ++ [Task.periodWrapper 3 (Task.plain 7)]) ∧
    (Worker.mk 0 (some 0) [] []).execTask
        (Task.delayWrapper 5 (Task.plain 7))
      = Except.ok (Worker.mk 0 (some 0)
          ([] ++ [TimerEntry.mk 5 none (Task.plain 7)]) []) ∧
    (Worker.mk 0 (some 0) [] []).execTask
        (Task.periodWrapper 3 (Task.plain 7))
      = Except.ok (Worker.mk 0 (some 0)
          ([] ++ [TimerEntry.mk 3 (some 3) (Task.plain 7)]) [])) :=
  ⟨rfl, delayedPostArmsTimerAtDequeue (TaskQueue.mk 2 [[]] 0) 0
    (Task.plain 7) 5 3 (Worker.mk 0 (some 0) [] []) 0 rfl⟩

/-- C4: with one shared capacity budget, a targeted post below capacity
is accepted and grows the in-flight count by one; at capacity the post
returns `false` and the queue is returned exactly unchanged (no partial
effect); and draining one task frees one slot, after which a post at the
formerly full queue is accepted again. -/
theorem capacityBackpressureRoundTrip (q : TaskQueue) (wid : Nat)
    (t t2 : Task) (hw : wid < q.laneNum) :
    (q.totalSize < q.capacity →
      ∃ q2, q.push wid t = some (true, q2) ∧
        q2.totalSize = q.totalSize + 1 ∧ q2.capacity = q.capacity) ∧
    (q.capacity ≤ q.totalSize → q.push wid t = some (false, q)) ∧
    (∀ x rest, q.lane wid = x :: rest →
      ∃ q2, q.pop wid = (some x, q2) ∧ q2.totalSize + 1 = q.totalSize ∧
        q2.capacity = q.capacity ∧
        (q.totalSize = q.capacity →
          ∃ q3, q2.push wid t2 = some (true, q3))) := by
  refine ⟨?_, ?_, ?_⟩
  · intro hcap
    exact ⟨_, TaskQueue.push_accept q wid t hw hcap,
      TaskQueue.totalSize_set_append q wid t hw, rfl⟩
  · intro hcap
    exact TaskQueue.push_reject q wid t hw hcap
  · intro x rest hx
    have h1 := TaskQueue.totalSize_set_tail q wid x rest hx
    refine ⟨_, TaskQueue.pop_cons q wid x rest hx, h1, rfl, ?_⟩
    intro hfull
    have hlen : wid < (q.lanes.set wid rest).length := by simpa using hw
    refine ⟨_, TaskQueue.push_accept _ wid t2 hlen ?_⟩
    show (TaskQueue.mk q.capacity (q.lanes.set wid rest)
        q.rrCursor).totalSize < q.capacity
    omega

/-- Witness for C4: a 1-lane queue of capacity 1 holding one task is
full; popping it frees the slot. -/
theorem capacityBackpressureRoundTrip_witness :
    0 < (TaskQueue.mk 1 [[Task.plain 2]] 0).laneNum ∧
    (((TaskQueue.mk 1 [[Task.plain 2]] 0).totalSize
        < (TaskQueue.mk 1 [[Task.plain 2]] 0).capacity →
      ∃ q2, (TaskQueue.mk 1 [[Task.plain 2]] 0).push 0 (Task.plain 3)
          = some (true, q2) ∧
        q2.totalSize = (TaskQueue.mk 1 [[Task.plain 2]] 0).totalSize + 1 ∧
        q2.capacity = (TaskQueue.mk 1 [[Task.plain 2]] 0).capacity) ∧
    ((TaskQueue.mk 1 [[Task.plain 2]] 0).capacity
        ≤ (TaskQueue.mk 1 [[Task.plain 2]] 0).totalSize →
      (TaskQueue.mk 1 [[Task.plain 2]] 0).push 0 (Task.plain 3)
        = some (false, TaskQueue.mk 1 [[Task.plain 2]] 0)) ∧
    (∀ x rest, (TaskQueue.mk 1 [[Task.plain 2]] 0).lane 0 = x :: rest →
      ∃ q2, (TaskQueue.mk 1 [[Task.plain 2]] 0).pop 0 = (some x, q2) ∧
        q2.totalSize + 1 = (TaskQueue.mk 1 [[Task.plain 2]] 0).totalSize ∧
        q2.capacity = (TaskQueue.mk 1 [[Task.plain 2]] 0).capacity ∧
        ((TaskQueue.mk 1 [[Task.plain 2]] 0).totalSize
            = (TaskQueue.mk 1 [[Task.plain 2]] 0).capacity →
          ∃ q3, q2.push 0 (Task.plain 5) = some (true, q3)))) :=
  ⟨by decide,
   capacityBackpressureRoundTrip (TaskQueue.mk 1 [[Task.plain 2]] 0) 0
     (Task.plain 3) (Task.plain 5) (by decide)⟩

/-- C6: `GetOutQueue` is idempotent per (thread, group): an unpopulated
entry causes exactly one producer registration, and the populated entry
stores both the shared-ownership queue reference and the new handle in
this thread's cache; the immediately repeated call returns the very same
handle with the cache and the registration state unchanged. -/
theorem getOutQueueIdempotentPerThread (gid qref : Nat) (c : ThreadCache)
    (r : ProducerReg) (h : (c.get gid).outQueue = none) :
    ∃ handle c2 r2,
      WorkerGroup.getOutQueue gid qref c r = (handle, c2, r2) ∧
      handle = r.nextProducer ∧
      r2.nextProducer = r.nextProducer + 1 ∧
      (c2.get gid).queueHolder = some qref ∧
      (c2.get gid).outQueue = some handle ∧
      WorkerGroup.getOutQueue gid qref c2 r2 = (handle, c2, r2) := by
  have hset :=
    ThreadCache.get_set_self c gid ⟨some qref, some r.nextProducer⟩
  refine ⟨r.nextProducer, c.set gid ⟨some qref, some r.nextProducer⟩,
    ProducerReg.mk (r.nextProducer + 1), ?_, rfl, rfl, ?_, ?_, ?_⟩
  · simp [WorkerGroup.getOutQueue, h, ProducerReg.registerProducer]
  · rw [hset]
  · rw [hset]
  · simp [WorkerGroup.getOutQueue, hset]

/-- Witness for C6: a fresh thread cache, group id 0, queue reference 5,
no producer registered yet. -/
theorem getOutQueueIdempotentPerThread_witness :
    (ThreadCache.empty.get 0).outQueue = none ∧
    (∃ handle c2 r2,
      WorkerGroup.getOutQueue 0 5 ThreadCache.empty (ProducerReg.mk 0)
        = (handle, c2, r2) ∧
      handle = (ProducerReg.mk 0).nextProducer ∧
      r2.nextProducer = (ProducerReg.mk 0).nextProducer + 1 ∧
      (c2.get 0).queueHolder = some 5 ∧
      (c2.get 0).outQueue = some handle ∧
      WorkerGroup.getOutQueue 0 5 c2 r2 = (handle, c2, r2)) :=
  ⟨rfl, getOutQueueIdempotentPerThread 0 5 ThreadCache.empty
    (ProducerReg.mk 0) rfl⟩

end CcBase
